import Mathlib

/-!
Verification of the dnscache repository: a caching layer in front of a
name-to-address resolution primitive, with pluggable storage back-ends
(an unbounded mutex-guarded map `Simple` and a bounded evicting `LRU`),
pluggable refresh strategies (`NoRefresh`, `LinearRefresh`, `BatchRefresh`),
a typed-option validation system, and a `Resolver` façade.

The definitions below are a shallow embedding of the Go source:
  - `net.IP` (a byte slice) becomes `IP := List Nat`;
  - `time.Duration` becomes a `Nat` count of nanoseconds;
  - a Go `error` value becomes `Err := String` for opaque resolver errors,
    and the package's own error values become the inductive `GoError`
    (`errors.New` sentinels are nullary constructors, `fmt.Errorf`
    formatted errors are constructors carrying their arguments);
  - the `map[string][]net.IP` table becomes an association list with
    unique keys and explicit get/insert/erase operations;
  - every application of the resolution primitive goes through
    `callResolver`, which appends the queried name to a `World` log, so
    "number of resolution-primitive invocations" is the growth of that log;
  - fallible Go functions return `Except`.
-/

namespace DnsCache

/-- `net.IP` is a byte slice; modelled as a list of byte values. -/
abbrev IP := List Nat

/-- An opaque error from the resolution primitive (Go `error`). -/
abbrev Err := String

/-- `ResolverFunc func(address string) ([]net.IP, error)` from cache/common.go.
On failure Go returns `nil, err`; the two cases are the two `Except` arms. -/
abbrev ResolverFunc := String → Except Err (List IP)

/-- The log of resolution-primitive invocations made so far (instrumentation:
each syntactic call of a `ResolverFunc` in the Go source is translated to one
`callResolver`). -/
structure World where
  calls : List String
deriving Repr, DecidableEq

/-- Invoke the resolution primitive, recording the invocation. -/
def callResolver (f : ResolverFunc) (a : String) (w : World) :
    Except Err (List IP) × World :=
  (f a, ⟨w.calls ++ [a]⟩)

/-! ## The Go map: association list with unique keys -/

/-- `m[k]` on a Go map: the value and the `ok` flag, as an `Option`. -/
def mapGet (m : List (String × List IP)) (k : String) : Option (List IP) :=
  match m with
  | [] => none
  | (k', v) :: rest => if k' = k then some v else mapGet rest k

/-- `m[k] = v` on a Go map: upsert, keeping keys unique. -/
def mapInsert (m : List (String × List IP)) (k : String) (v : List IP) :
    List (String × List IP) :=
  match m with
  | [] => [(k, v)]
  | (k', v') :: rest =>
      if k' = k then (k', v) :: rest else (k', v') :: mapInsert rest k v

/-- `delete(m, k)` on a Go map. -/
def mapErase (m : List (String × List IP)) (k : String) :
    List (String × List IP) :=
  match m with
  | [] => []
  | (k', v') :: rest =>
      if k' = k then rest else (k', v') :: mapErase rest k

/-- `slices.Sorted(maps.Keys(m))`: the keys sorted lexicographically.
Go map iteration order is unspecified; sorting makes the result a function
of the key set alone. -/
def sortStrings (l : List String) : List String :=
  l.mergeSort (fun a b => a ≤ b)

/-! ## RefreshType (cache/refresh.go) -/

/-- `RefreshType` string constants `RefreshOff`, `RefreshLinear`, `RefreshBatch`. -/
inductive RefreshType where
  | off
  | linear
  | batch
deriving Repr, DecidableEq

/-! ## The option system (cache/common.go) -/

/-- A `ConfigOption.Value` is a Go `any`; the dynamic type tags below cover
every type the package's `config` switches assert. `vOther` stands for a
value of any further type (every type assertion on it fails). -/
inductive ConfigValue where
  | vResolver (f : ResolverFunc)
  | vBool (b : Bool)
  | vDuration (d : Nat)
  | vInt (n : Int)
  | vRefreshType (t : RefreshType)
  | vOther

/-- `ConfigKey` is a string type. -/
abbrev ConfigKey := String

/-- `ConfigOption` is a `{Key, Value}` tuple. -/
structure ConfigOption where
  key : ConfigKey
  value : ConfigValue

/-- Errors produced by this package itself.
`unsupportedOption` is the single package-level sentinel
`ErrorConfigKeyUnsupported = errors.New("option is not supported")`;
`wrongType k` is `ConfigKey.Error()`, the formatted
"value of option k is the wrong type";
`missingRequired k` is the formatted "option k is required";
`instantiateLRU` is the wrapped "error instantiating lru" from `lru.New2Q`. -/
inductive GoError where
  | unsupportedOption
  | wrongType (key : ConfigKey)
  | missingRequired (key : ConfigKey)
  | instantiateLRU
deriving Repr, DecidableEq

/-- `ConfigKey.IsIn`: the value of the first option carrying this key. -/
def ConfigKey.IsIn (c : ConfigKey) (opts : List ConfigOption) : Option ConfigValue :=
  match opts with
  | [] => none
  | o :: rest => if o.key = c then some o.value else ConfigKey.IsIn c rest

/-! ## The Simple cache (cache/map.go) -/

/-- `Simple` (cache/map.go). The `done` channel and the mutex are concurrency
plumbing with no sequential content; the `refresh RefreshFunc` field is not
stored separately because `config` always sets it together with, and
determined by, `refreshType`. Durations are nanosecond counts. -/
structure Simple where
  cache : List (String × List IP)
  resolver : ResolverFunc
  refreshShuffle : Bool
  refreshSleepTime : Nat
  refreshType : RefreshType
  refreshBatchSize : Int

/-- `time.Second` in nanoseconds. -/
def secondNs : Nat := 1000000000

/-- `time.Millisecond` in nanoseconds. -/
def millisecondNs : Nat := 1000000

/-- The recognized option keys of `Simple.config` (cache/map.go). -/
def simpleKeys : List ConfigKey :=
  ["Resolver", "RefreshShuffle", "RefreshSleepTime", "RefreshType", "RefreshBatchSize"]

/-- `Simple.config` (cache/map.go): validate and apply one option. -/
def Simple.config (r : Simple) (opt : ConfigOption) : Except GoError Simple :=
  if opt.key = "Resolver" then
    match opt.value with
    | .vResolver f => .ok { r with resolver := f }
    | _ => .error (.wrongType opt.key)
  else if opt.key = "RefreshShuffle" then
    match opt.value with
    | .vBool b => .ok { r with refreshShuffle := b }
    | _ => .error (.wrongType opt.key)
  else if opt.key = "RefreshSleepTime" then
    match opt.value with
    | .vDuration d => .ok { r with refreshSleepTime := d }
    | _ => .error (.wrongType opt.key)
  else if opt.key = "RefreshType" then
    match opt.value with
    | .vRefreshType t => .ok { r with refreshType := t }
    | _ => .error (.wrongType opt.key)
  else if opt.key = "RefreshBatchSize" then
    match opt.value with
    | .vInt n => .ok { r with refreshBatchSize := n }
    | _ => .error (.wrongType opt.key)
  else
    .error .unsupportedOption

/-- The `DefaultResolver` (`net.LookupIP`) is an external collaborator; its
behaviour is opaque, so the embedding gives it an unconstrained stand-in. -/
def DefaultResolver : ResolverFunc := fun _ => .ok []

/-- `NewSimple` (cache/map.go): defaults, then apply each option, aborting
on the first validation failure. -/
def NewSimple (options : List ConfigOption) : Except GoError Simple :=
  let s : Simple :=
    { cache := []
      resolver := DefaultResolver
      refreshShuffle := true
      refreshSleepTime := secondNs
      refreshType := .linear
      refreshBatchSize := 15 }
  options.foldlM Simple.config s

/-- `Simple.Lookup` (cache/map.go): always invoke the resolution primitive;
on success upsert the entry, on failure return the error unmodified and
leave the cache untouched. -/
def Simple.Lookup (r : Simple) (address : String) (w : World) :
    Except Err (List IP) × Simple × World :=
  match callResolver r.resolver address w with
  | (.error e, w') => (.error e, r, w')
  | (.ok ips, w') => (.ok ips, { r with cache := mapInsert r.cache address ips }, w')

/-- `Simple.Fetch` (cache/map.go): serve the cached value if present,
otherwise behave as `Lookup`. -/
def Simple.Fetch (r : Simple) (address : String) (w : World) :
    Except Err (List IP) × Simple × World :=
  match mapGet r.cache address with
  | some ips => (.ok ips, r, w)
  | none => r.Lookup address w

/-- `Simple.Get` (cache/map.go): pure read; the `(value, ok)` pair is the
`Option`. -/
def Simple.Get (r : Simple) (address : String) : Option (List IP) :=
  mapGet r.cache address

/-- `Simple.Add` (cache/map.go): unconditional upsert. -/
def Simple.Add (r : Simple) (address : String) (ips : List IP) : Simple :=
  { r with cache := mapInsert r.cache address ips }

/-- `Simple.Remove` (cache/map.go): delete if present. -/
def Simple.Remove (r : Simple) (address : String) : Simple :=
  { r with cache := mapErase r.cache address }

/-- `Simple.Purge` (cache/map.go): replace the table with a fresh empty one. -/
def Simple.Purge (r : Simple) : Simple :=
  { r with cache := [] }

/-- `Simple.Len` (cache/map.go). -/
def Simple.Len (r : Simple) : Nat :=
  r.cache.length

/-- `Simple.Contains` (cache/map.go). -/
def Simple.Contains (r : Simple) (address : String) : Bool :=
  (mapGet r.cache address).isSome

/-- `Simple.Keys` (cache/map.go): `slices.Sorted(maps.Keys(r.cache))`. -/
def Simple.Keys (r : Simple) : List String :=
  sortStrings (r.cache.map Prod.fst)

/-! ## The LRU cache (cache/lru.go) -/

/-- The third-party bounded/evicting map collaborator (hashicorp golang-lru),
which the spec places out of scope: "consumed only through
add/get/remove/contains/keys/len/purge". The embedding keeps its entries as
an insertion-ordered association list; its eviction policy (capacity
pressure, rolling TTL) is internal to the collaborator and not modelled.
`size`/`ttl` record the construction parameters; `ttl = none` is the
two-queue flavor, `ttl = some d` the expirable flavor. -/
structure HashiLRU where
  size : Int
  ttl : Option Nat
  entries : List (String × List IP)

/-- Collaborator `Add` (upsert; eviction out of scope). -/
def HashiLRU.add (h : HashiLRU) (k : String) (v : List IP) : HashiLRU :=
  { h with entries := mapInsert h.entries k v }

/-- Collaborator `Get`. -/
def HashiLRU.get (h : HashiLRU) (k : String) : Option (List IP) :=
  mapGet h.entries k

/-- Collaborator `Remove`. -/
def HashiLRU.remove (h : HashiLRU) (k : String) : HashiLRU :=
  { h with entries := mapErase h.entries k }

/-- Collaborator `Purge`. -/
def HashiLRU.purge (h : HashiLRU) : HashiLRU :=
  { h with entries := [] }

/-- Collaborator `Len`. -/
def HashiLRU.len (h : HashiLRU) : Nat :=
  h.entries.length

/-- `lru.New2Q(size)`: fails for non-positive sizes ("error instantiating
lru"); modelled from the collaborator's documented contract. -/
def hashiNew2Q (size : Int) : Except GoError HashiLRU :=
  if size ≤ 0 then .error .instantiateLRU else .ok ⟨size, none, []⟩

/-- `expirable.NewLRU(size, nil, ttl)`: never fails. -/
def hashiNewExpirable (size : Int) (ttl : Nat) : HashiLRU :=
  ⟨size, some ttl, []⟩

/-- `LRU` (cache/lru.go). -/
structure LRU where
  cache : HashiLRU
  allowRefresh : Bool
  resolver : ResolverFunc
  refreshShuffle : Bool
  refreshSleepTime : Nat

/-- The recognized option keys of `LRU.config` (cache/lru.go). -/
def lruKeys : List ConfigKey :=
  ["Resolver", "RefreshShuffle", "RefreshSleepTime", "AllowRefresh", "ItemTTL", "CacheSize"]

/-- `LRU.config` (cache/lru.go): validate and apply one option. `ItemTTL`
and `CacheSize` are constructor-only: the case only type-checks the value. -/
def LRU.config (r : LRU) (opt : ConfigOption) : Except GoError LRU :=
  if opt.key = "Resolver" then
    match opt.value with
    | .vResolver f => .ok { r with resolver := f }
    | _ => .error (.wrongType opt.key)
  else if opt.key = "RefreshShuffle" then
    match opt.value with
    | .vBool b => .ok { r with refreshShuffle := b }
    | _ => .error (.wrongType opt.key)
  else if opt.key = "RefreshSleepTime" then
    match opt.value with
    | .vDuration d => .ok { r with refreshSleepTime := d }
    | _ => .error (.wrongType opt.key)
  else if opt.key = "AllowRefresh" then
    match opt.value with
    | .vBool b => .ok { r with allowRefresh := b }
    | _ => .error (.wrongType opt.key)
  else if opt.key = "ItemTTL" then
    match opt.value with
    | .vDuration _ => .ok r
    | _ => .error (.wrongType opt.key)
  else if opt.key = "CacheSize" then
    match opt.value with
    | .vInt _ => .ok r
    | _ => .error (.wrongType opt.key)
  else
    .error .unsupportedOption

/-- `NewLRU` (cache/lru.go): the `CacheSize` requirement is checked first;
then the collaborator flavor is chosen by the presence of `ItemTTL`; then
defaults are set and each option is validated and applied in order. -/
def NewLRU (options : List ConfigOption) : Except GoError LRU :=
  match ConfigKey.IsIn "CacheSize" options with
  | none => .error (.missingRequired "CacheSize")
  | some v =>
    match v with
    | .vInt cacheSize =>
      (match ConfigKey.IsIn "ItemTTL" options with
       | some tv =>
         match tv with
         | .vDuration ttl => .ok (hashiNewExpirable cacheSize ttl)
         | _ => .error (.wrongType "ItemTTL")
       | none => hashiNew2Q cacheSize)
      >>= fun cache =>
        let l : LRU :=
          { cache := cache
            allowRefresh := true
            resolver := DefaultResolver
            refreshShuffle := true
            refreshSleepTime := secondNs }
        options.foldlM LRU.config l
    | _ => .error (.wrongType "CacheSize")

/-- `LRU.Lookup` (cache/lru.go): live lookup; on success add to the
collaborator, on failure return the error unmodified and leave the
collaborator untouched. -/
def LRU.Lookup (r : LRU) (address : String) (w : World) :
    Except Err (List IP) × LRU × World :=
  match callResolver r.resolver address w with
  | (.error e, w') => (.error e, r, w')
  | (.ok ips, w') => (.ok ips, { r with cache := r.cache.add address ips }, w')

/-- `LRU.Fetch` (cache/lru.go). -/
def LRU.Fetch (r : LRU) (address : String) (w : World) :
    Except Err (List IP) × LRU × World :=
  match r.cache.get address with
  | some ips => (.ok ips, r, w)
  | none => r.Lookup address w

/-! ## Basic lemmas about the map operations -/

theorem mapGet_mapInsert_self (m : List (String × List IP)) (k : String) (v : List IP) :
    mapGet (mapInsert m k v) k = some v := by
  induction m with
  | nil => simp [mapInsert, mapGet]
  | cons hd tl ih =>
    obtain ⟨k', v'⟩ := hd
    by_cases h : k' = k
    · simp [mapInsert, mapGet, h]
    · simp [mapInsert, mapGet, h, ih]

theorem mapGet_mapInsert_ne (m : List (String × List IP)) (k k' : String) (v : List IP)
    (h : k ≠ k') : mapGet (mapInsert m k v) k' = mapGet m k' := by
  induction m with
  | nil => simp [mapInsert, mapGet, h]
  | cons hd tl ih =>
    obtain ⟨a, b⟩ := hd
    by_cases ha : a = k
    · subst ha
      simp [mapInsert, mapGet, h]
    · simp [mapInsert, mapGet, ha, ih]

theorem mapErase_of_get_none (m : List (String × List IP)) (k : String)
    (h : mapGet m k = none) : mapErase m k = m := by
  induction m with
  | nil => simp [mapErase]
  | cons hd tl ih =>
    obtain ⟨a, b⟩ := hd
    by_cases ha : a = k
    · simp [mapGet, ha] at h
    · simp [mapGet, ha] at h
      simp [mapErase, ha, ih h]

/-! ## Example states used by the witnesses -/

/-- A deterministic stand-in resolution primitive for concrete runs:
resolves any name starting with a digit-free prefix; fails on "bad". -/
def egResolver : ResolverFunc := fun a =>
  if a = "bad" then .error "lookup failed" else .ok [[127, 0, 0, 1]]

/-- A concrete `Simple` with an empty table and `egResolver`. -/
def egSimple : Simple :=
  { cache := []
    resolver := egResolver
    refreshShuffle := false
    refreshSleepTime := 0
    refreshType := .linear
    refreshBatchSize := 15 }

/-- A concrete `LRU` with an empty collaborator and `egResolver`. -/
def egLRU : LRU :=
  { cache := ⟨100, none, []⟩
    allowRefresh := true
    resolver := egResolver
    refreshShuffle := false
    refreshSleepTime := 0 }

/-! ## C1 -/

/-- C1: for a name not present in the cache whose resolution succeeds,
`Fetch` invokes the resolution primitive exactly once (the call log grows by
exactly that name), stores the result, and a subsequent `Get` returns the
same address list; for a name already present, a further `Fetch` returns the
cached list with zero further resolution-primitive invocations and no state
change. -/
theorem fetch_miss_resolves_once_then_cached
    (r : Simple) (w : World) (name : String) (ips : List IP)
    (habsent : r.Get name = none) (hres : r.resolver name = .ok ips) :
    r.Fetch name w = (.ok ips, r.Add name ips, ⟨w.calls ++ [name]⟩) ∧
    (r.Add name ips).Get name = some ips ∧
    ∀ w' : World, (r.Add name ips).Fetch name w' = (.ok ips, r.Add name ips, w') := by
  have hget : (r.Add name ips).Get name = some ips := by
    simp [Simple.Add, Simple.Get, mapGet_mapInsert_self]
  refine ⟨?_, hget, ?_⟩
  · simp only [Simple.Fetch, Simple.Get] at habsent ⊢
    rw [habsent]
    simp [Simple.Lookup, callResolver, hres, Simple.Add]
  · intro w'
    simp only [Simple.Fetch, Simple.Get] at hget ⊢
    rw [hget]

/-- C1 witness: a concrete run on the empty `egSimple` and the name "x". -/
theorem fetch_miss_resolves_once_then_cached_witness :
    egSimple.Get "x" = none ∧ egSimple.resolver "x" = .ok [[127, 0, 0, 1]] ∧
    (egSimple.Fetch "x" ⟨[]⟩
        = (.ok [[127, 0, 0, 1]], egSimple.Add "x" [[127, 0, 0, 1]], ⟨["x"]⟩) ∧
      (egSimple.Add "x" [[127, 0, 0, 1]]).Get "x" = some [[127, 0, 0, 1]] ∧
      ∀ w' : World, (egSimple.Add "x" [[127, 0, 0, 1]]).Fetch "x" w'
        = (.ok [[127, 0, 0, 1]], egSimple.Add "x" [[127, 0, 0, 1]], w')) :=
  ⟨rfl, by simp [egSimple, egResolver],
    fetch_miss_resolves_once_then_cached egSimple ⟨[]⟩ "x" [[127, 0, 0, 1]]
      rfl (by simp [egSimple, egResolver])⟩

/-! ## C2 -/

/-- C2: when the resolution primitive fails on a name, `Simple.Lookup` and
`LRU.Lookup` return that error unmodified (one live invocation, no retry)
and leave the entire cache value unchanged; `Fetch` on a cache miss behaves
identically. -/
theorem lookup_failure_verbatim_no_mutation
    (r : Simple) (l : LRU) (w : World) (name : String) (e : Err)
    (hrs : r.resolver name = .error e) (hls : l.resolver name = .error e) :
    r.Lookup name w = (.error e, r, ⟨w.calls ++ [name]⟩) ∧
    (r.Get name = none → r.Fetch name w = (.error e, r, ⟨w.calls ++ [name]⟩)) ∧
    l.Lookup name w = (.error e, l, ⟨w.calls ++ [name]⟩) ∧
    (l.cache.get name = none → l.Fetch name w = (.error e, l, ⟨w.calls ++ [name]⟩)) := by
  have hr : r.Lookup name w = (.error e, r, ⟨w.calls ++ [name]⟩) := by
    simp [Simple.Lookup, callResolver, hrs]
  have hl : l.Lookup name w = (.error e, l, ⟨w.calls ++ [name]⟩) := by
    simp [LRU.Lookup, callResolver, hls]
  refine ⟨hr, ?_, hl, ?_⟩
  · intro habsent
    simp only [Simple.Fetch, Simple.Get] at habsent ⊢
    rw [habsent, hr]
  · intro habsent
    simp only [LRU.Fetch]
    rw [habsent, hl]

/-- C2 witness: the failing name "bad" against `egSimple` and `egLRU`. -/
theorem lookup_failure_verbatim_no_mutation_witness :
    egSimple.resolver "bad" = .error "lookup failed" ∧
    egLRU.resolver "bad" = .error "lookup failed" ∧
    (egSimple.Lookup "bad" ⟨[]⟩ = (.error "lookup failed", egSimple, ⟨["bad"]⟩) ∧
      (egSimple.Get "bad" = none →
        egSimple.Fetch "bad" ⟨[]⟩ = (.error "lookup failed", egSimple, ⟨["bad"]⟩)) ∧
      egLRU.Lookup "bad" ⟨[]⟩ = (.error "lookup failed", egLRU, ⟨["bad"]⟩) ∧
      (egLRU.cache.get "bad" = none →
        egLRU.Fetch "bad" ⟨[]⟩ = (.error "lookup failed", egLRU, ⟨["bad"]⟩))) :=
  ⟨by simp [egSimple, egResolver], by simp [egLRU, egResolver],
    lookup_failure_verbatim_no_mutation egSimple egLRU ⟨[]⟩ "bad" "lookup failed"
      (by simp [egSimple, egResolver]) (by simp [egLRU, egResolver])⟩

/-! ## C9 -/

/-- C9: `Purge` drives `Len` to 0 for every prior content, and `Remove` on
an absent name is a no-op returning the state entirely unchanged. -/
theorem purge_len_zero_remove_absent_noop
    (r : Simple) (name : String) (habsent : r.Get name = none) :
    r.Purge.Len = 0 ∧ r.Remove name = r := by
  constructor
  · simp [Simple.Purge, Simple.Len]
  · simp only [Simple.Get] at habsent
    simp [Simple.Remove, mapErase_of_get_none _ _ habsent]

/-- C9 witness: a two-entry cache, removing the absent name "zz". -/
theorem purge_len_zero_remove_absent_noop_witness :
    (egSimple.Add "a" [[1]] |>.Add "b" [[2]]).Get "zz" = none ∧
    ((egSimple.Add "a" [[1]] |>.Add "b" [[2]]).Purge.Len = 0 ∧
      (egSimple.Add "a" [[1]] |>.Add "b" [[2]]).Remove "zz"
        = (egSimple.Add "a" [[1]] |>.Add "b" [[2]])) :=
  ⟨rfl, purge_len_zero_remove_absent_noop (egSimple.Add "a" [[1]] |>.Add "b" [[2]]) "zz" rfl⟩

/-! ## C7 -/

/-- C7: every `NewLRU` call whose option list carries no `CacheSize` key
fails with the distinguished "missing required option" condition, before any
other option validation runs (the other options may be arbitrarily
malformed) and yields no usable instance. -/
theorem newLRU_missing_size_fails_first
    (options : List ConfigOption)
    (h : ConfigKey.IsIn "CacheSize" options = none) :
    NewLRU options = .error (.missingRequired "CacheSize") ∧
    ∀ l : LRU, NewLRU options ≠ .ok l := by
  have heq : NewLRU options = .error (.missingRequired "CacheSize") := by
    unfold NewLRU
    rw [h]
  exact ⟨heq, fun l hl => by rw [heq] at hl; exact Except.noConfusion hl⟩

/-- C7 witness: an option list holding only a malformed, unrelated option. -/
theorem newLRU_missing_size_fails_first_witness :
    ConfigKey.IsIn "CacheSize" [⟨"ItemTTL", .vBool true⟩] = none ∧
    (NewLRU [⟨"ItemTTL", .vBool true⟩] = .error (.missingRequired "CacheSize") ∧
      ∀ l : LRU, NewLRU [⟨"ItemTTL", .vBool true⟩] ≠ .ok l) :=
  ⟨rfl, newLRU_missing_size_fails_first [⟨"ItemTTL", .vBool true⟩] rfl⟩

/-! ## C8 -/

/-- C8: an option whose key is outside the receiving back-end's recognized
set makes that back-end's `config` fail with the one sentinel value
`GoError.unsupportedOption` — the same value whichever back-end received
it — and construction returns no instance. -/
theorem unrecognized_key_yields_sentinel
    (opt : ConfigOption)
    (hs : opt.key ∉ simpleKeys) (hl : opt.key ∉ lruKeys) :
    (∀ r : Simple, r.config opt = .error .unsupportedOption) ∧
    (∀ l : LRU, l.config opt = .error .unsupportedOption) ∧
    NewSimple [opt] = .error .unsupportedOption ∧
    NewLRU [⟨"CacheSize", .vInt 10⟩, opt] = .error .unsupportedOption := by
  simp only [simpleKeys, List.mem_cons, List.not_mem_nil, or_false, not_or] at hs
  simp only [lruKeys, List.mem_cons, List.not_mem_nil, or_false, not_or] at hl
  obtain ⟨h1, h2, h3, h4, h5⟩ := hs
  obtain ⟨_, _, _, h6, h7, h8⟩ := hl
  have hsc : ∀ r : Simple, r.config opt = .error .unsupportedOption := by
    intro r
    simp [Simple.config, h1, h2, h3, h4, h5]
  have hlc : ∀ l : LRU, l.config opt = .error .unsupportedOption := by
    intro l
    simp [LRU.config, h1, h2, h3, h6, h7, h8]
  refine ⟨hsc, hlc, ?_, ?_⟩
  · simp only [NewSimple, List.foldlM, bind, Except.bind]
    rw [hsc]
  · have hsize : ConfigKey.IsIn "CacheSize" [⟨"CacheSize", .vInt 10⟩, opt]
        = some (.vInt 10) := by
      simp [ConfigKey.IsIn]
    have httl : ConfigKey.IsIn "ItemTTL" [⟨"CacheSize", .vInt 10⟩, opt] = none := by
      simp [ConfigKey.IsIn, h7]
    have h2q : hashiNew2Q 10 = .ok ⟨10, none, []⟩ := by
      simp [hashiNew2Q]
    unfold NewLRU
    rw [hsize, httl]
    simp only [h2q, bind, Except.bind, List.foldlM]
    have hfirst : LRU.config
        { cache := ⟨10, none, []⟩, allowRefresh := true, resolver := DefaultResolver,
          refreshShuffle := true, refreshSleepTime := secondNs }
        ⟨"CacheSize", .vInt 10⟩ = .ok
        { cache := ⟨10, none, []⟩, allowRefresh := true, resolver := DefaultResolver,
          refreshShuffle := true, refreshSleepTime := secondNs } := by
      simp [LRU.config]
    rw [hfirst]
    simp only [Except.bind]
    rw [hlc]

/-- C8 witness: the unrelated key "RefreshTimeout" (recognized by the
refresh strategies, but by neither back-end). -/
theorem unrecognized_key_yields_sentinel_witness :
    (⟨"RefreshTimeout", .vDuration 5⟩ : ConfigOption).key ∉ simpleKeys ∧
    (⟨"RefreshTimeout", .vDuration 5⟩ : ConfigOption).key ∉ lruKeys ∧
    ((∀ r : Simple, r.config ⟨"RefreshTimeout", .vDuration 5⟩ = .error .unsupportedOption) ∧
      (∀ l : LRU, l.config ⟨"RefreshTimeout", .vDuration 5⟩ = .error .unsupportedOption) ∧
      NewSimple [⟨"RefreshTimeout", .vDuration 5⟩] = .error .unsupportedOption ∧
      NewLRU [⟨"CacheSize", .vInt 10⟩, ⟨"RefreshTimeout", .vDuration 5⟩]
        = .error .unsupportedOption) :=
  ⟨by decide, by decide,
    unrecognized_key_yields_sentinel ⟨"RefreshTimeout", .vDuration 5⟩
      (by decide) (by decide)⟩

/-! ## Refresh strategies (cache/refresh.go)

A Go `RefreshFunc` receives a capability-limited cache (`Keys`, `Contains`)
and a resolver closure whose side effects land in the owning cache. In the
embedding the shared mutable state is threaded explicitly through a state
type `σ`: the capability surface becomes `σ`-indexed functions and the
resolver closure becomes a state transformer `σ → String → σ` (its returned
values are discarded by every strategy, as in the source). `math/rand`
shuffling is nondeterministic; it is modelled by an explicit permutation
parameter `perm`, applied only when shuffling is on. Wall-clock time is a
nanosecond counter that advances by the inter-item sleep at each pacing
step (lookups themselves take no model time); the `select` between the
pacing timer and the deadline context takes the deadline branch exactly
when a deadline is set and falls strictly before the timer would fire (a
simultaneous arrival is a race in Go; the model resolves it in the timer's
favor). -/

/-- `RefreshableCache` (cache/common.go): the minimal surface a back-end
exposes to the refresh strategies, over explicit state `σ`. -/
structure RefreshableCache (σ : Type) where
  Keys : σ → List String
  Contains : σ → String → Bool

/-- The option-parsing state of `LinearRefresh` (its local variables). -/
structure LinearOpts where
  refreshShuffle : Bool
  refreshSleepTime : Nat
  refreshTimeout : Nat
deriving Repr, DecidableEq

/-- The option loop of `LinearRefresh` (cache/refresh.go): recognized keys
are `RefreshShuffle`, `RefreshSleepTime`, `RefreshTimeout`; anything else is
the unsupported-option sentinel. -/
def parseLinearOpts (options : List ConfigOption) (acc : LinearOpts) :
    Except GoError LinearOpts :=
  match options with
  | [] => .ok acc
  | o :: rest =>
    if o.key = "RefreshShuffle" then
      match o.value with
      | .vBool b => parseLinearOpts rest { acc with refreshShuffle := b }
      | _ => .error (.wrongType o.key)
    else if o.key = "RefreshSleepTime" then
      match o.value with
      | .vDuration d => parseLinearOpts rest { acc with refreshSleepTime := d }
      | _ => .error (.wrongType o.key)
    else if o.key = "RefreshTimeout" then
      match o.value with
      | .vDuration d => parseLinearOpts rest { acc with refreshTimeout := d }
      | _ => .error (.wrongType o.key)
    else
      .error .unsupportedOption

/-- `NoRefresh` (cache/refresh.go): always `(true, nil)`, touching nothing. -/
def NoRefresh (σ : Type) (s : σ) : Except GoError (Bool × σ) :=
  .ok (true, s)

/-- The pacing loop of `LinearRefresh` (cache/refresh.go): `rest` holds the
not-yet-visited tail of the address snapshot, `now` the elapsed model time.
Each iteration is one `select`: the deadline context wins when a deadline is
set and falls strictly before the pacing timer; otherwise the timer fires,
the `STALE` inner loop skips forward past concurrently evicted keys, and the
first still-present key is resolved. -/
def linearLoop {σ : Type} (cache : RefreshableCache σ) (resolve : σ → String → σ)
    (sleep timeout : Nat) (rest : List String) (now : Nat) (s : σ) : Bool × σ :=
  match rest with
  | [] => (true, s)
  | hd :: tl =>
    if timeout ≠ 0 ∧ timeout < now + sleep then (false, s)
    else
      match h : (hd :: tl).dropWhile (fun a => !(cache.Contains s a)) with
      | [] => (true, s)
      | a :: rest' =>
          linearLoop cache resolve sleep timeout rest' (now + sleep) (resolve s a)
termination_by rest.length
decreasing_by
  have hle := (List.dropWhile_sublist (l := hd :: tl)
    (fun a => !(cache.Contains s a))).length_le
  rw [h] at hle
  simp only [List.length_cons] at hle ⊢
  omega

/-- `LinearRefresh` (cache/refresh.go): parse options over the defaults
(shuffle on, 1s sleep, no timeout); snapshot `Keys`; empty snapshot returns
`(true, nil)` at once; optionally shuffle; resolve the first key outside the
pacing loop (no initial wait); then run the pacing loop from elapsed time 0.
(The `[]` arm after shuffling is unreachable for a genuine permutation and
mirrors the in-place shuffle preserving non-emptiness.) -/
def LinearRefresh {σ : Type} (cache : RefreshableCache σ) (resolve : σ → String → σ)
    (perm : List String → List String) (options : List ConfigOption) (s : σ) :
    Except GoError (Bool × σ) :=
  match parseLinearOpts options ⟨true, secondNs, 0⟩ with
  | .error e => .error e
  | .ok o =>
    match cache.Keys s with
    | [] => .ok (true, s)
    | k :: ks =>
      match (if o.refreshShuffle then perm (k :: ks) else k :: ks) with
      | [] => .ok (true, s)
      | a :: rest =>
          .ok (linearLoop cache resolve o.refreshSleepTime o.refreshTimeout
                rest 0 (resolve s a))

/-! ### The Simple back-end as a refreshable cache

`Simple.Refresh` passes its own `Lookup` as the strategy's resolver, so the
strategy state is the pair of the cache and the invocation log. -/

/-- The `RefreshableCache` surface of `Simple` (cache/map.go `Keys`,
`Contains`). -/
def simpleRC : RefreshableCache (Simple × World) :=
  { Keys := fun sw => sw.1.Keys
    Contains := fun sw a => sw.1.Contains a }

/-- The resolver closure `r.Lookup` that `Simple.Refresh` hands to the
strategy; the strategy discards the returned values. -/
def simpleResolve (sw : Simple × World) (a : String) : Simple × World :=
  (sw.1.Lookup a sw.2).2

/-! ### Lemmas about the Simple instance of the strategy surface -/

theorem mapGet_isSome_iff (m : List (String × List IP)) (k : String) :
    (mapGet m k).isSome = true ↔ k ∈ m.map Prod.fst := by
  induction m with
  | nil => simp [mapGet]
  | cons hd tl ih =>
    obtain ⟨a, b⟩ := hd
    by_cases ha : a = k
    · subst ha
      simp [mapGet]
    · simp [mapGet, ha, ih, Ne.symm ha]

theorem simpleResolve_ok (sw : Simple × World) (a : String) (ips : List IP)
    (h : sw.1.resolver a = .ok ips) :
    simpleResolve sw a
      = ({ sw.1 with cache := mapInsert sw.1.cache a ips }, ⟨sw.2.calls ++ [a]⟩) := by
  simp [simpleResolve, Simple.Lookup, callResolver, h]

theorem simpleResolve_err (sw : Simple × World) (a : String) (e : Err)
    (h : sw.1.resolver a = .error e) :
    simpleResolve sw a = (sw.1, ⟨sw.2.calls ++ [a]⟩) := by
  simp [simpleResolve, Simple.Lookup, callResolver, h]

theorem simpleResolve_world (sw : Simple × World) (a : String) :
    (simpleResolve sw a).2 = ⟨sw.2.calls ++ [a]⟩ := by
  rcases h : sw.1.resolver a with e | ips
  · rw [simpleResolve_err sw a e h]
  · rw [simpleResolve_ok sw a ips h]

theorem simpleResolve_resolver (sw : Simple × World) (a : String) :
    (simpleResolve sw a).1.resolver = sw.1.resolver := by
  rcases h : sw.1.resolver a with e | ips
  · rw [simpleResolve_err sw a e h]
  · rw [simpleResolve_ok sw a ips h]

theorem contains_simpleResolve (sw : Simple × World) (a b : String)
    (h : sw.1.Contains a = true) :
    (simpleResolve sw b).1.Contains a = true := by
  rcases hres : sw.1.resolver b with e | ips
  · rw [simpleResolve_err sw b e hres]; exact h
  · rw [simpleResolve_ok sw b ips hres]
    simp only [Simple.Contains] at h ⊢
    by_cases hab : b = a
    · subst hab
      simp [mapGet_mapInsert_self]
    · rw [mapGet_mapInsert_ne _ _ _ _ hab]
      exact h

theorem foldl_simpleResolve_calls (keys : List String) :
    ∀ sw : Simple × World, (keys.foldl simpleResolve sw).2 = ⟨sw.2.calls ++ keys⟩ := by
  induction keys with
  | nil => intro sw; simp
  | cons a rest ih =>
    intro sw
    rw [List.foldl_cons, ih, simpleResolve_world]
    simp

theorem foldl_simpleResolve_get (keys : List String) :
    ∀ (sw : Simple × World) (k : String) (ips : List IP),
      sw.1.resolver k = .ok ips →
      (k ∈ keys ∨ sw.1.Get k = some ips) →
      ((keys.foldl simpleResolve sw).1).Get k = some ips := by
  induction keys with
  | nil =>
    intro sw k ips _ h
    rcases h with h | h
    · exact absurd h (List.not_mem_nil k)
    · simpa using h
  | cons a rest ih =>
    intro sw k ips hres h
    rw [List.foldl_cons]
    apply ih
    · rw [simpleResolve_resolver]; exact hres
    · by_cases hka : k = a
      · right
        subst hka
        rw [simpleResolve_ok sw k ips hres]
        simp [Simple.Get, mapGet_mapInsert_self]
      · rcases h with h | h
        · rcases List.mem_cons.mp h with h' | h'
          · exact absurd h' hka
          · exact Or.inl h'
        · right
          rcases hres' : sw.1.resolver a with e | ips'
          · rw [simpleResolve_err sw a e hres']; exact h
          · rw [simpleResolve_ok sw a ips' hres']
            simp only [Simple.Get] at h ⊢
            rw [mapGet_mapInsert_ne _ _ _ _ (fun hak => hka hak.symm)]
            exact h

theorem keys_perm (r : Simple) : r.Keys.Perm (r.cache.map Prod.fst) :=
  List.mergeSort_perm _ _

theorem mem_keys_contains (r : Simple) (k : String) (h : k ∈ r.Keys) :
    r.Contains k = true := by
  rw [Simple.Contains, mapGet_isSome_iff]
  exact (keys_perm r).mem_iff.mp h

theorem keys_ne_nil (r : Simple) (h : r.cache ≠ []) : r.Keys ≠ [] := by
  intro hk
  have := (keys_perm r).length_eq
  rw [hk, List.length_map] at this
  exact h (List.eq_nil_of_length_eq_zero this.symm)

/-- The pacing loop with no deadline configured visits every remaining key
in order (no key is skipped when every key stays present) and reports
completion. -/
theorem linearLoop_no_deadline {σ : Type} (cache : RefreshableCache σ)
    (resolve : σ → String → σ) (sleep : Nat)
    (hpres : ∀ s a b, cache.Contains s a = true → cache.Contains (resolve s b) a = true)
    (rest : List String) (now : Nat) (s : σ)
    (hall : ∀ a ∈ rest, cache.Contains s a = true) :
    linearLoop cache resolve sleep 0 rest now s = (true, rest.foldl resolve s) := by
  induction rest generalizing now s with
  | nil => simp [linearLoop]
  | cons hd tl ih =>
    rw [linearLoop]
    have hhd : cache.Contains s hd = true := hall hd (List.mem_cons_self hd tl)
    have hdw : (hd :: tl).dropWhile (fun a => !(cache.Contains s a)) = hd :: tl := by
      rw [List.dropWhile_cons]
      simp [hhd]
    rw [if_neg (by simp)]
    split
    · next heq =>
        rw [hdw] at heq
        exact absurd heq (List.cons_ne_nil _ _)
    · next a rest' heq =>
        rw [hdw] at heq
        injection heq with h1 h2
        subst h1
        subst h2
        rw [List.foldl_cons]
        exact ih (now + sleep) (resolve s hd)
          (fun x hx => hpres s x hd (hall x (List.mem_cons_of_mem hd hx)))

/-! ## C3 -/

/-- C3: a sequential refresh pass over a non-empty key set with inter-item
delay 0, shuffling disabled, and deadline 0 (unbounded) attempts a
resolution for every key of the snapshot (the invocation log grows by
exactly the snapshot, in order), reports completion `true`, and every entry
whose lookup succeeds ends up holding the resolved address list (hence
non-empty whenever the resolver's answer is). -/
theorem linear_full_pass_attempts_all
    (r : Simple) (w : World) (perm : List String → List String)
    (hne : r.cache ≠ []) :
    ∃ rFin : Simple,
      LinearRefresh simpleRC simpleResolve perm
          [⟨"RefreshShuffle", .vBool false⟩, ⟨"RefreshSleepTime", .vDuration 0⟩,
           ⟨"RefreshTimeout", .vDuration 0⟩] (r, w)
        = .ok (true, rFin, ⟨w.calls ++ r.Keys⟩) ∧
      ∀ k ∈ r.Keys, ∀ ips : List IP, r.resolver k = .ok ips → rFin.Get k = some ips := by
  obtain ⟨a, rest, hk⟩ : ∃ a rest, r.Keys = a :: rest := by
    cases h : r.Keys with
    | nil => exact absurd h (keys_ne_nil r hne)
    | cons a rest => exact ⟨a, rest, rfl⟩
  refine ⟨(r.Keys.foldl simpleResolve (r, w)).1, ?_, ?_⟩
  · have hparse : parseLinearOpts
        [⟨"RefreshShuffle", .vBool false⟩, ⟨"RefreshSleepTime", .vDuration 0⟩,
         ⟨"RefreshTimeout", .vDuration 0⟩] ⟨true, secondNs, 0⟩
        = .ok ⟨false, 0, 0⟩ := rfl
    have hloop := linearLoop_no_deadline simpleRC simpleResolve 0
        (fun s u b h => contains_simpleResolve s u b h)
        rest 0 (simpleResolve (r, w) a)
        (fun u hu => contains_simpleResolve (r, w) u a
          (mem_keys_contains r u (hk ▸ List.mem_cons_of_mem a hu)))
    have hcalls := foldl_simpleResolve_calls (a :: rest) (r, w)
    have hkeys2 : simpleRC.Keys (r, w) = a :: rest := hk
    simp only [LinearRefresh, hparse, hkeys2, hk, Bool.false_eq_true, if_false]
    rw [hloop, ← List.foldl_cons]
    refine congrArg Except.ok (Prod.ext_iff.mpr ⟨rfl, Prod.ext_iff.mpr ⟨rfl, ?_⟩⟩)
    simpa using hcalls
  · intro k hkmem ips hres
    exact foldl_simpleResolve_get r.Keys (r, w) k ips hres (Or.inl hkmem)

/-- Sorting an already-sorted string list is the identity. -/
theorem sortStrings_of_sorted {l : List String} (h : l.Pairwise (· ≤ ·)) :
    sortStrings l = l :=
  List.mergeSort_of_sorted (h.imp (fun hab => by simpa using hab))

/-- `egSimple` seeded with three placeholder (empty) entries X, Y, Z. -/
def egSimple3 : Simple :=
  { egSimple with cache := [("x", []), ("y", []), ("z", [])] }

theorem egSimple3_keys : egSimple3.Keys = ["x", "y", "z"] := by
  show sortStrings ["x", "y", "z"] = ["x", "y", "z"]
  refine sortStrings_of_sorted ?_
  refine List.pairwise_cons.mpr ⟨?_, List.pairwise_cons.mpr ⟨?_, List.pairwise_singleton _ _⟩⟩ <;>
    intro b hb <;> fin_cases hb <;> simp <;> decide

/-- C3 witness: a full sequential pass over the three-entry placeholder
cache with delay 0, shuffling disabled, deadline 0. -/
theorem linear_full_pass_attempts_all_witness :
    egSimple3.cache ≠ [] ∧
    (∃ rFin : Simple,
      LinearRefresh simpleRC simpleResolve id
          [⟨"RefreshShuffle", .vBool false⟩, ⟨"RefreshSleepTime", .vDuration 0⟩,
           ⟨"RefreshTimeout", .vDuration 0⟩] (egSimple3, ⟨[]⟩)
        = .ok (true, rFin, ⟨(⟨[]⟩ : World).calls ++ egSimple3.Keys⟩) ∧
      ∀ k ∈ egSimple3.Keys, ∀ ips : List IP,
        egSimple3.resolver k = .ok ips → rFin.Get k = some ips) :=
  ⟨List.cons_ne_nil _ _,
    linear_full_pass_attempts_all egSimple3 ⟨[]⟩ id (List.cons_ne_nil _ _)⟩

/-! ## C4 -/

/-- C4: with shuffling disabled, inter-item delay 4s and a 1ms deadline, a
sequential pass over snapshot `[x, y, z]` resolves the first key
immediately (no initial wait: the invocation log grows by `[x]` even though
the deadline is far shorter than the delay), then the deadline fires before
the first inter-item wait completes, the pass reports incomplete `false`,
and the entries of `y` and `z` are left exactly as they were. -/
theorem linear_deadline_truncates_after_first
    (r : Simple) (w : World) (perm : List String → List String)
    (x y z : String) (hk : r.Keys = [x, y, z]) (hxy : x ≠ y) (hxz : x ≠ z) :
    LinearRefresh simpleRC simpleResolve perm
        [⟨"RefreshShuffle", .vBool false⟩,
         ⟨"RefreshSleepTime", .vDuration (4 * secondNs)⟩,
         ⟨"RefreshTimeout", .vDuration millisecondNs⟩] (r, w)
      = .ok (false, simpleResolve (r, w) x) ∧
    (simpleResolve (r, w) x).2 = ⟨w.calls ++ [x]⟩ ∧
    (∀ ips : List IP, r.resolver x = .ok ips →
      (simpleResolve (r, w) x).1.Get x = some ips) ∧
    (simpleResolve (r, w) x).1.Get y = r.Get y ∧
    (simpleResolve (r, w) x).1.Get z = r.Get z := by
  have hunch : ∀ u : String, x ≠ u → (simpleResolve (r, w) x).1.Get u = r.Get u := by
    intro u hxu
    rcases hres : r.resolver x with e | ips
    · rw [simpleResolve_err (r, w) x e hres]
    · rw [simpleResolve_ok (r, w) x ips hres]
      simp only [Simple.Get]
      exact mapGet_mapInsert_ne _ _ _ _ hxu
  refine ⟨?_, simpleResolve_world (r, w) x, ?_, hunch y hxy, hunch z hxz⟩
  · have hparse : parseLinearOpts
        [⟨"RefreshShuffle", .vBool false⟩,
         ⟨"RefreshSleepTime", .vDuration (4 * secondNs)⟩,
         ⟨"RefreshTimeout", .vDuration millisecondNs⟩] ⟨true, secondNs, 0⟩
        = .ok ⟨false, 4 * secondNs, millisecondNs⟩ := rfl
    have hkeys2 : simpleRC.Keys (r, w) = [x, y, z] := hk
    simp only [LinearRefresh, hparse, hkeys2, Bool.false_eq_true, if_false]
    rw [linearLoop, if_pos]
    constructor
    · simp [millisecondNs]
    · simp [millisecondNs, secondNs]
  · intro ips hres
    rw [simpleResolve_ok (r, w) x ips hres]
    simp [Simple.Get, mapGet_mapInsert_self]

/-- C4 witness: the three placeholder entries "x" < "y" < "z". -/
theorem linear_deadline_truncates_after_first_witness :
    egSimple3.Keys = ["x", "y", "z"] ∧ ("x" : String) ≠ "y" ∧ ("x" : String) ≠ "z" ∧
    (LinearRefresh simpleRC simpleResolve id
        [⟨"RefreshShuffle", .vBool false⟩,
         ⟨"RefreshSleepTime", .vDuration (4 * secondNs)⟩,
         ⟨"RefreshTimeout", .vDuration millisecondNs⟩] (egSimple3, ⟨[]⟩)
      = .ok (false, simpleResolve (egSimple3, ⟨[]⟩) "x") ∧
    (simpleResolve (egSimple3, ⟨[]⟩) "x").2 = ⟨(⟨[]⟩ : World).calls ++ ["x"]⟩ ∧
    (∀ ips : List IP, egSimple3.resolver "x" = .ok ips →
      (simpleResolve (egSimple3, ⟨[]⟩) "x").1.Get "x" = some ips) ∧
    (simpleResolve (egSimple3, ⟨[]⟩) "x").1.Get "y" = egSimple3.Get "y" ∧
    (simpleResolve (egSimple3, ⟨[]⟩) "x").1.Get "z" = egSimple3.Get "z") :=
  ⟨egSimple3_keys, by decide, by decide,
    linear_deadline_truncates_after_first egSimple3 ⟨[]⟩ id "x" "y" "z"
      egSimple3_keys (by decide) (by decide)⟩

/-! ## C6 -/

theorem sortStrings_sorted (l : List String) :
    List.Sorted (· ≤ ·) (sortStrings l) := by
  have h := @List.sorted_mergeSort String (fun a b : String => a ≤ b)
      (fun a b c h1 h2 => by
        simp only [decide_eq_true_eq] at h1 h2 ⊢
        exact le_trans h1 h2)
      (fun a b => by simpa using le_total a b) l
  exact h.imp (fun hab => by simpa using hab)

theorem sortStrings_perm_eq {l1 l2 : List String} (h : l1.Perm l2) :
    sortStrings l1 = sortStrings l2 :=
  List.eq_of_perm_of_sorted
    ((List.mergeSort_perm _ _).trans (h.trans (List.mergeSort_perm l2 _).symm))
    (sortStrings_sorted l1) (sortStrings_sorted l2)

/-- Modelled from the spec: the repository's current `LRU.Keys` method is not
among the provided source files (only an older lru.go snapshot without it
is); the package documentation states "Keys returns a sorted slice of the
cache keys". Modelled as the sorted snapshot of the collaborator's resident
key names. -/
def LRU.Keys (r : LRU) : List String :=
  sortStrings (r.cache.entries.map Prod.fst)

/-- C6: for both back-ends, `Keys()` is a sorted snapshot of the resident
key names, and it is deterministic: any two states holding the same key set
(in whatever internal order) produce the same list. With shuffling disabled
a sequential refresh pass traverses exactly that list in that order (the
invocation log of a full pass is the `Keys()` snapshot). -/
theorem keys_sorted_deterministic_traversal
    (r r2 : Simple) (l l2 : LRU) (w : World) (perm : List String → List String)
    (hperm : (r.cache.map Prod.fst).Perm (r2.cache.map Prod.fst))
    (hlperm : (l.cache.entries.map Prod.fst).Perm (l2.cache.entries.map Prod.fst)) :
    List.Sorted (· ≤ ·) r.Keys ∧ r.Keys.Perm (r.cache.map Prod.fst) ∧
    r.Keys = r2.Keys ∧
    List.Sorted (· ≤ ·) l.Keys ∧ l.Keys.Perm (l.cache.entries.map Prod.fst) ∧
    l.Keys = l2.Keys ∧
    (r.cache ≠ [] → ∃ rFin : Simple,
      LinearRefresh simpleRC simpleResolve perm
          [⟨"RefreshShuffle", .vBool false⟩, ⟨"RefreshSleepTime", .vDuration 0⟩,
           ⟨"RefreshTimeout", .vDuration 0⟩] (r, w)
        = .ok (true, rFin, ⟨w.calls ++ r.Keys⟩)) := by
  refine ⟨sortStrings_sorted _, keys_perm r, sortStrings_perm_eq hperm,
    sortStrings_sorted _, List.mergeSort_perm _ _, sortStrings_perm_eq hlperm, ?_⟩
  intro hne
  obtain ⟨a, rest, hk⟩ : ∃ a rest, r.Keys = a :: rest := by
    cases h : r.Keys with
    | nil => exact absurd h (keys_ne_nil r hne)
    | cons a rest => exact ⟨a, rest, rfl⟩
  refine ⟨(r.Keys.foldl simpleResolve (r, w)).1, ?_⟩
  have hparse : parseLinearOpts
      [⟨"RefreshShuffle", .vBool false⟩, ⟨"RefreshSleepTime", .vDuration 0⟩,
       ⟨"RefreshTimeout", .vDuration 0⟩] ⟨true, secondNs, 0⟩
      = .ok ⟨false, 0, 0⟩ := rfl
  have hloop := linearLoop_no_deadline simpleRC simpleResolve 0
      (fun s u b h => contains_simpleResolve s u b h)
      rest 0 (simpleResolve (r, w) a)
      (fun u hu => contains_simpleResolve (r, w) u a
        (mem_keys_contains r u (hk ▸ List.mem_cons_of_mem a hu)))
  have hcalls := foldl_simpleResolve_calls (a :: rest) (r, w)
  have hkeys2 : simpleRC.Keys (r, w) = a :: rest := hk
  simp only [LinearRefresh, hparse, hkeys2, hk, Bool.false_eq_true, if_false]
  rw [hloop, ← List.foldl_cons]
  refine congrArg Except.ok (Prod.ext_iff.mpr ⟨rfl, Prod.ext_iff.mpr ⟨rfl, ?_⟩⟩)
  simpa using hcalls

/-- C6 witness: two `Simple` states holding the same keys in different
internal order, two `LRU` states likewise, and the three-key traversal. -/
theorem keys_sorted_deterministic_traversal_witness :
    (((egSimple3.cache.map Prod.fst).Perm
        ((egSimple.Add "z" [] |>.Add "y" [] |>.Add "x" []).cache.map Prod.fst)) ∧
     ((egLRU.cache.entries.map Prod.fst).Perm (egLRU.cache.entries.map Prod.fst))) ∧
    (List.Sorted (· ≤ ·) egSimple3.Keys ∧
     egSimple3.Keys.Perm (egSimple3.cache.map Prod.fst) ∧
     egSimple3.Keys = (egSimple.Add "z" [] |>.Add "y" [] |>.Add "x" []).Keys ∧
     List.Sorted (· ≤ ·) egLRU.Keys ∧
     egLRU.Keys.Perm (egLRU.cache.entries.map Prod.fst) ∧
     egLRU.Keys = egLRU.Keys ∧
     (egSimple3.cache ≠ [] → ∃ rFin : Simple,
       LinearRefresh simpleRC simpleResolve id
           [⟨"RefreshShuffle", .vBool false⟩, ⟨"RefreshSleepTime", .vDuration 0⟩,
            ⟨"RefreshTimeout", .vDuration 0⟩] (egSimple3, ⟨[]⟩)
         = .ok (true, rFin, ⟨(⟨[]⟩ : World).calls ++ egSimple3.Keys⟩))) :=
  ⟨⟨by decide, List.Perm.refl _⟩,
    keys_sorted_deterministic_traversal egSimple3
      (egSimple.Add "z" [] |>.Add "y" [] |>.Add "x" []) egLRU egLRU ⟨[]⟩ id
      (by decide) (List.Perm.refl _)⟩

/-! ## BatchRefresh (cache/refresh.go)

The windowed-parallel strategy dispatches lookups as goroutines tracked by
a `sync.WaitGroup`. The embedding records every dispatch in order in a
`dispatched` list and applies the resolver's state effect at dispatch time
(one admissible serialization of the concurrent lookups; the join question
is independent of it), and records on which exit path the call returned and
whether `wg.Wait()` was executed on that path (`joined`). -/

/-- The exit paths of `BatchRefresh`. -/
inductive BatchExit where
  /-- the snapshot was empty: immediate return before any dispatch -/
  | empty
  /-- the whole key set fit in the first window: `return true, nil` -/
  | firstWindow
  /-- the wave loop consumed the entire key list (`break DONE`), then `wg.Wait()` -/
  | walkedAll
  /-- the deadline context fired between waves: `return false, nil` -/
  | deadline
deriving Repr, DecidableEq

/-- What a `BatchRefresh` call returned together with the instrumentation:
the dispatched lookups in dispatch order and whether they were joined
(`wg.Wait()`) on the exit path taken. -/
structure BatchResult (σ : Type) where
  completed : Bool
  state : σ
  dispatched : List String
  joined : Bool
  exitPath : BatchExit

/-- The option loop of `BatchRefresh`: as `LinearRefresh`'s, plus
`RefreshBatchSize` which was already applied and is skipped. -/
def parseBatchOpts (options : List ConfigOption) (acc : LinearOpts) :
    Except GoError LinearOpts :=
  match options with
  | [] => .ok acc
  | o :: rest =>
    if o.key = "RefreshShuffle" then
      match o.value with
      | .vBool b => parseBatchOpts rest { acc with refreshShuffle := b }
      | _ => .error (.wrongType o.key)
    else if o.key = "RefreshSleepTime" then
      match o.value with
      | .vDuration d => parseBatchOpts rest { acc with refreshSleepTime := d }
      | _ => .error (.wrongType o.key)
    else if o.key = "RefreshTimeout" then
      match o.value with
      | .vDuration d => parseBatchOpts rest { acc with refreshTimeout := d }
      | _ => .error (.wrongType o.key)
    else if o.key = "RefreshBatchSize" then
      parseBatchOpts rest acc
    else
      .error .unsupportedOption

/-- The first dispatch loop of `BatchRefresh`: fire a lookup for each key,
incrementing `total`, until `total >= batchSize` (checked after each
dispatch, so at least one fires) or the keys run out. Returns the new
`total`, state and dispatch log. -/
def batchFirstWindow {σ : Type} (resolve : σ → String → σ) (batchSize : Int) :
    List String → Nat → σ → List String → Nat × σ × List String
  | [], total, s, disp => (total, s, disp)
  | a :: rest, total, s, disp =>
      let s' := resolve s a
      let total' := total + 1
      let disp' := disp ++ [a]
      if (total' : Int) ≥ batchSize then (total', s', disp')
      else batchFirstWindow resolve batchSize rest total' s' disp'

/-- The `STALE` inner loop of a wave: walk the remaining keys, dispatching
the still-present ones (`run` counts dispatches), consuming every visited
slot; stop when the key list is exhausted (the `total >= len` check, which
breaks the outer wave loop) or `run >= batchSize` (checked after each slot,
dispatched or not). Returns the remaining keys, state and dispatch log;
an empty remainder signals the `break DONE`. -/
def batchStale {σ : Type} (cache : RefreshableCache σ) (resolve : σ → String → σ)
    (batchSize : Int) :
    List String → Nat → σ → List String → List String × σ × List String
  | [], _, s, disp => ([], s, disp)
  | a :: rest, run, s, disp =>
      let step : σ × List String × Nat :=
        if cache.Contains s a then (resolve s a, disp ++ [a], run + 1)
        else (s, disp, run)
      if rest = [] then ([], step.1, step.2.1)
      else if (step.2.2 : Int) ≥ batchSize then (rest, step.1, step.2.1)
      else batchStale cache resolve batchSize rest step.2.2 step.1 step.2.1

theorem batchStale_length_le {σ : Type} (cache : RefreshableCache σ)
    (resolve : σ → String → σ) (batchSize : Int) :
    ∀ (rest : List String) (a : String) (run : Nat) (s : σ) (disp : List String),
      (batchStale cache resolve batchSize (a :: rest) run s disp).1.length ≤ rest.length := by
  intro rest
  induction rest with
  | nil =>
    intro a run s disp
    simp [batchStale]
  | cons b rest2 ih =>
    intro a run s disp
    rw [batchStale]
    rw [if_neg (List.cons_ne_nil b rest2)]
    by_cases hr : ((if cache.Contains s a
        then (resolve s a, disp ++ [a], run + 1) else (s, disp, run)).2.2 : Int) ≥ batchSize
    · rw [if_pos hr]
    · rw [if_neg hr]
      exact le_trans (ih b _ _ _) (Nat.le_succ _)

/-- The `DONE` wave loop of `BatchRefresh`: each iteration is one `select`
(deadline context versus inter-wave timer), then one `STALE` walk. The `[]`
arm is unreachable from the wiring (`BatchRefresh` enters the loop only
with keys remaining, and every `STALE` walk that empties the list breaks
out itself). -/
def batchLoop {σ : Type} (cache : RefreshableCache σ) (resolve : σ → String → σ)
    (sleep timeout : Nat) (batchSize : Int) (remaining : List String) (now : Nat)
    (s : σ) (disp : List String) : BatchResult σ :=
  match remaining with
  | [] => ⟨true, s, disp, true, .walkedAll⟩
  | a :: rest =>
    if timeout ≠ 0 ∧ timeout < now + sleep then ⟨false, s, disp, false, .deadline⟩
    else
      match h : batchStale cache resolve batchSize (a :: rest) 0 s disp with
      | ([], s', disp') => ⟨true, s', disp', true, .walkedAll⟩
      | (b :: rem', s', disp') =>
          batchLoop cache resolve sleep timeout batchSize (b :: rem') (now + sleep) s' disp'
termination_by remaining.length
decreasing_by
  have hle := batchStale_length_le cache resolve batchSize tl hd 0 s disp
  rw [h] at hle
  simp only [List.length_cons] at hle ⊢
  omega

/-- `BatchRefresh` (cache/refresh.go): require `RefreshBatchSize` first;
parse the remaining options over the defaults; empty snapshot returns at
once; optionally shuffle; dispatch the first window without waiting; if the
whole key set fit in the first window return `true` immediately (without
`wg.Wait()`); otherwise run the wave loop, whose normal completion joins
all dispatches (`wg.Wait()`) and whose deadline exit returns `false`
(without `wg.Wait()`). -/
def BatchRefresh {σ : Type} (cache : RefreshableCache σ) (resolve : σ → String → σ)
    (perm : List String → List String) (options : List ConfigOption) (s : σ) :
    Except GoError (BatchResult σ) :=
  match ConfigKey.IsIn "RefreshBatchSize" options with
  | none => .error (.missingRequired "RefreshBatchSize")
  | some v =>
    match v with
    | .vInt batchSize =>
      match parseBatchOpts options ⟨true, secondNs, 0⟩ with
      | .error e => .error e
      | .ok o =>
        match cache.Keys s with
        | [] => .ok ⟨true, s, [], false, .empty⟩
        | k :: ks =>
          let addresses := if o.refreshShuffle then perm (k :: ks) else k :: ks
          let fw := batchFirstWindow resolve batchSize addresses 0 s []
          if fw.1 ≥ addresses.length then .ok ⟨true, fw.2.1, fw.2.2, false, .firstWindow⟩
          else .ok (batchLoop cache resolve o.refreshSleepTime o.refreshTimeout
                      batchSize (addresses.drop fw.1) 0 fw.2.1 fw.2.2)
    | _ => .error (.wrongType "RefreshBatchSize")

/-! ## C5 -/

theorem batchLoop_join_iff {σ : Type} (cache : RefreshableCache σ)
    (resolve : σ → String → σ) (sleep timeout : Nat) (batchSize : Int) :
    ∀ (n : Nat) (remaining : List String), remaining.length ≤ n →
    ∀ (now : Nat) (s : σ) (disp : List String),
      ((batchLoop cache resolve sleep timeout batchSize remaining now s disp).joined = true ↔
        (batchLoop cache resolve sleep timeout batchSize remaining now s disp).exitPath
          = .walkedAll) ∧
      ((batchLoop cache resolve sleep timeout batchSize remaining now s disp).exitPath
          = .walkedAll →
        (batchLoop cache resolve sleep timeout batchSize remaining now s disp).completed
          = true) ∧
      ((batchLoop cache resolve sleep timeout batchSize remaining now s disp).exitPath
          = .deadline →
        (batchLoop cache resolve sleep timeout batchSize remaining now s disp).completed
          = false) ∧
      ((batchLoop cache resolve sleep timeout batchSize remaining now s disp).exitPath
          = .walkedAll ∨
        (batchLoop cache resolve sleep timeout batchSize remaining now s disp).exitPath
          = .deadline) := by
  intro n
  induction n with
  | zero =>
    intro remaining hlen now s disp
    have hnil : remaining = [] := List.eq_nil_of_length_eq_zero (Nat.le_zero.mp hlen)
    subst hnil
    simp [batchLoop]
  | succ n ih =>
    intro remaining hlen now s disp
    match remaining with
    | [] => simp [batchLoop]
    | a :: rest =>
      rw [batchLoop]
      by_cases hto : timeout ≠ 0 ∧ timeout < now + sleep
      · rw [if_pos hto]
        simp
      · rw [if_neg hto]
        split
        · simp
        · next b rem' s' disp' hst =>
            apply ih
            have hle := batchStale_length_le cache resolve batchSize rest a 0 s disp
            rw [hst] at hle
            simp only [List.length_cons] at hle hlen ⊢
            omega

/-- C5 (amended): a windowed-parallel refresh joins its dispatched lookups
before returning exactly on the normal-completion exit (the wave loop
walked the whole key list); the exit where the whole key set fit in the
first window, and the deadline exit, return without joining the in-flight
lookups. The completion flag is `true` on the first-window and walked-all
exits and `false` on the deadline exit. -/
theorem batch_joins_only_on_full_walk {σ : Type} (cache : RefreshableCache σ)
    (resolve : σ → String → σ) (perm : List String → List String)
    (options : List ConfigOption) (s : σ) (res : BatchResult σ)
    (h : BatchRefresh cache resolve perm options s = .ok res) :
    (res.joined = true ↔ res.exitPath = .walkedAll) ∧
    (res.exitPath = .walkedAll → res.completed = true) ∧
    (res.exitPath = .deadline → res.completed = false) ∧
    (res.exitPath = .firstWindow → res.completed = true ∧ res.joined = false) ∧
    (res.exitPath = .empty → res.dispatched = [] ∧ res.joined = false) := by
  unfold BatchRefresh at h
  split at h
  · exact absurd h (by simp)
  · split at h
    · split at h
      · exact absurd h (by simp)
      · split at h
        · injection h with h'
          subst h'
          simp
        · split at h <;>
          · simp only [] at h
            split at h
            · injection h with h'
              subst h'
              simp
            · injection h with h'
              rw [← h']
              refine ⟨(batchLoop_join_iff cache resolve _ _ _ _ _ (le_refl _) _ _ _).1,
                (batchLoop_join_iff cache resolve _ _ _ _ _ (le_refl _) _ _ _).2.1,
                (batchLoop_join_iff cache resolve _ _ _ _ _ (le_refl _) _ _ _).2.2.1, ?_, ?_⟩ <;>
              · intro hx
                rcases (batchLoop_join_iff cache resolve _ _ _ _ _ (le_refl _) _ _ _).2.2.2
                  with hy | hy <;>
                  rw [hx] at hy <;> exact absurd hy (by simp)
    · exact absurd h (by simp)

/-- A minimal concrete back-end for strategy runs: a fixed key snapshot,
every key always present, the state being the log of resolved names. -/
def constRC (keys : List String) : RefreshableCache (List String) :=
  { Keys := fun _ => keys, Contains := fun _ _ => true }

/-- The resolver closure for `constRC`: log the name. -/
def listResolve (log : List String) (a : String) : List String :=
  log ++ [a]

/-- C5 counterexample: with a single resident key and window size 15, the
whole key set fits in the first window and `BatchRefresh` returns
(completed) with the dispatched lookup `"x"` not joined — refuting the
claim that every exit path joins all dispatched lookups before returning. -/
theorem batch_returns_unjoined_counterexample :
    BatchRefresh (constRC ["x"]) listResolve id
        [⟨"RefreshBatchSize", .vInt 15⟩, ⟨"RefreshShuffle", .vBool false⟩,
         ⟨"RefreshSleepTime", .vDuration 0⟩, ⟨"RefreshTimeout", .vDuration 0⟩] []
      = .ok ⟨true, ["x"], ["x"], false, .firstWindow⟩ := rfl

unseal batchLoop in
/-- Concrete evaluation of a three-key, window-1 `BatchRefresh` run. -/
theorem batchRefresh_eval3 :
    BatchRefresh (constRC ["x", "y", "z"]) listResolve id
        [⟨"RefreshBatchSize", .vInt 1⟩, ⟨"RefreshShuffle", .vBool false⟩,
         ⟨"RefreshSleepTime", .vDuration 0⟩, ⟨"RefreshTimeout", .vDuration 0⟩] []
      = .ok ⟨true, ["x", "y", "z"], ["x", "y", "z"], true, .walkedAll⟩ := rfl

/-- C5 (amended) witness: a three-key run with window size 1 exits through
the full walk of the key list and joins all three dispatched lookups. -/
theorem batch_joins_only_on_full_walk_witness :
    ∃ res : BatchResult (List String),
      BatchRefresh (constRC ["x", "y", "z"]) listResolve id
          [⟨"RefreshBatchSize", .vInt 1⟩, ⟨"RefreshShuffle", .vBool false⟩,
           ⟨"RefreshSleepTime", .vDuration 0⟩, ⟨"RefreshTimeout", .vDuration 0⟩] []
        = .ok res ∧
      ((res.joined = true ↔ res.exitPath = .walkedAll) ∧
       (res.exitPath = .walkedAll → res.completed = true) ∧
       (res.exitPath = .deadline → res.completed = false) ∧
       (res.exitPath = .firstWindow → res.completed = true ∧ res.joined = false) ∧
       (res.exitPath = .empty → res.dispatched = [] ∧ res.joined = false)) ∧
      res.joined = true ∧ res.dispatched = ["x", "y", "z"] :=
  ⟨⟨true, ["x", "y", "z"], ["x", "y", "z"], true, .walkedAll⟩, batchRefresh_eval3,
    batch_joins_only_on_full_walk _ _ _ _ _ _ batchRefresh_eval3, rfl, rfl⟩

/-! ## The Resolver façade (dnscache.go) -/

/-- The façade `Resolver` (dnscache.go): owns one storage back-end (the
default wiring, `NewWithRefreshTimeout`, constructs a `cache.Simple`). The
`done` channel, the `ResolverConfig` intervals and the auto-refresh
goroutine are scheduling plumbing with no sequential content. -/
structure Resolver where
  cache : Simple

/-- Façade `Fetch` (dnscache.go): delegate to the back-end. -/
def Resolver.Fetch (r : Resolver) (address : String) (w : World) :
    Except Err (List IP) × Resolver × World :=
  let t := r.cache.Fetch address w
  (t.1, ⟨t.2.1⟩, t.2.2)

/-- Stand-in for `net.IP.String` on IPv4 byte lists (dotted quad); the IP
formatting routine is an external collaborator, unused on the paths the
claims touch. -/
def ipString (ip : IP) : String :=
  String.intercalate "." (ip.map toString)

/-- Façade `FetchOne` (dnscache.go): `if err != nil || len(ips) == 0
{ return nil, err }; return ips[0], nil`. The value half of the Go pair is
the `Option IP`, the error half the `Option Err`. -/
def Resolver.FetchOne (r : Resolver) (address : String) (w : World) :
    (Option IP × Option Err) × Resolver × World :=
  match r.Fetch address w with
  | (.error e, r', w') => ((none, some e), r', w')
  | (.ok [], r', w') => ((none, none), r', w')
  | (.ok (ip :: _), r', w') => ((some ip, none), r', w')

/-- Façade `FetchOneString` (dnscache.go): `if err != nil || ip == nil
{ return "", err }; return ip.String(), nil`. -/
def Resolver.FetchOneString (r : Resolver) (address : String) (w : World) :
    (String × Option Err) × Resolver × World :=
  match r.FetchOne address w with
  | ((none, e), r', w') => (("", e), r', w')
  | ((some ip, _), r', w') => ((ipString ip, none), r', w')

/-! ## C10 -/

/-- C10: when the cached entry for a name is the empty address list (a
valid placeholder state), `FetchOne` returns no IP with a nil error and
`FetchOneString` returns the empty string with a nil error — outputs
identical to those of a cache miss whose live lookup succeeds with zero
addresses, so the caller cannot tell the cases apart by the error alone. -/
theorem fetchone_empty_placeholder_nil_error
    (r : Resolver) (w : World) (name : String)
    (hcached : r.cache.Get name = some []) :
    r.FetchOne name w = ((none, none), r, w) ∧
    r.FetchOneString name w = (("", none), r, w) ∧
    ∀ r2 : Resolver, r2.cache.Get name = none → r2.cache.resolver name = .ok [] →
      (r2.FetchOne name w).1 = (none, none) ∧
      (r2.FetchOneString name w).1 = ("", none) := by
  have hfetch : r.Fetch name w = (.ok [], r, w) := by
    simp only [Simple.Get] at hcached
    simp [Resolver.Fetch, Simple.Fetch, hcached]
  have h1 : r.FetchOne name w = ((none, none), r, w) := by
    rw [Resolver.FetchOne, hfetch]
  refine ⟨h1, ?_, ?_⟩
  · rw [Resolver.FetchOneString, h1]
  · intro r2 hmiss hres
    have hfetch2 : r2.Fetch name w
        = (.ok [], ⟨(r2.cache.Lookup name w).2.1⟩, (r2.cache.Lookup name w).2.2) := by
      simp only [Simple.Get] at hmiss
      simp [Resolver.Fetch, Simple.Fetch, hmiss, Simple.Lookup, callResolver, hres]
    have h2 : (r2.FetchOne name w).1 = (none, none) := by
      rw [Resolver.FetchOne, hfetch2]
    constructor
    · exact h2
    · rw [Resolver.FetchOneString]
      rcases hfo : r2.FetchOne name w with ⟨⟨oip, oerr⟩, r', w'⟩
      rw [hfo] at h2
      simp only at h2
      obtain ⟨h2a, h2b⟩ := Prod.mk.injEq .. ▸ h2
      simp_all

/-- C10 witness: a façade whose cache holds the placeholder entry
`("e", [])`, and a second façade with an empty cache whose resolver answers
with zero addresses. -/
theorem fetchone_empty_placeholder_nil_error_witness :
    (⟨{ egSimple with cache := [("e", [])] }⟩ : Resolver).cache.Get "e" = some [] ∧
    ((⟨{ egSimple with cache := [("e", [])] }⟩ : Resolver).FetchOne "e" ⟨[]⟩
        = ((none, none), ⟨{ egSimple with cache := [("e", [])] }⟩, ⟨[]⟩) ∧
      (⟨{ egSimple with cache := [("e", [])] }⟩ : Resolver).FetchOneString "e" ⟨[]⟩
        = (("", none), ⟨{ egSimple with cache := [("e", [])] }⟩, ⟨[]⟩) ∧
      ∀ r2 : Resolver, r2.cache.Get "e" = none → r2.cache.resolver "e" = .ok [] →
        (r2.FetchOne "e" ⟨[]⟩).1 = (none, none) ∧
        (r2.FetchOneString "e" ⟨[]⟩).1 = ("", none)) :=
  ⟨rfl, fetchone_empty_placeholder_nil_error
    ⟨{ egSimple with cache := [("e", [])] }⟩ ⟨[]⟩ "e" rfl⟩

end DnsCache
